import Mathlib

/-!
Verification development for the EduSmart AI tutor repository.

The Python sources are shallowly embedded: Python `str` values become
`List Char` where character-level behaviour matters (substring tests,
lowercasing, cleanup) and Lean `String` where they are opaque payloads;
Python dicts with string keys become association lists; Python floats in
the confidence heuristic become exact rationals (`ℚ`); fallible calls into
third-party libraries (the retrieval chain, the LLM backends) become
`Except`-valued oracles supplied as arguments.
-/

namespace AITutor

/-! ## Python string primitives -/

/-- Lowercasing, modelling Python `str.lower` on the ASCII text the code uses. -/
def lowerStr (s : List Char) : List Char := s.map Char.toLower

/-- Substring test, modelling Python `pat in s` on strings: `pat` occurs
contiguously in `s` (the empty pattern occurs in every string). -/
def hasSub : List Char → List Char → Bool
  | pat, [] => pat.isEmpty
  | pat, c :: rest => pat.isPrefixOf (c :: rest) || hasSub pat rest

/-- Python list slice `l[-k:]`.  Because `-0 == 0`, the slice with `k = 0`
is `l[0:]`, i.e. the whole list; for `k ≥ 1` it is the last `k` elements. -/
def pySliceLast {α : Type} (k : Nat) (l : List α) : List α :=
  if k = 0 then l else l.drop (l.length - k)

/-- Whitespace characters stripped by Python `str.strip()`. -/
def isPySpace (c : Char) : Bool :=
  c = ' ' || c = '\t' || c = '\n' || c = '\r' || c = '\x0b' || c = '\x0c'

/-- Python `str.strip()`: drop leading and trailing whitespace. -/
def pyStrip (s : List Char) : List Char :=
  ((s.dropWhile isPySpace).reverse.dropWhile isPySpace).reverse

/-- Fuelled worker for `pyRemoveAll`.  Each step either consumes one
character or a whole (non-empty) occurrence of `pat`, so fuel
`s.length` always suffices; the fuel only makes the recursion structural. -/
def pyRemoveAllFuel (pat : List Char) : Nat → List Char → List Char
  | 0, s => s
  | _ + 1, [] => []
  | fuel + 1, c :: rest =>
    if pat ≠ [] ∧ pat.isPrefixOf (c :: rest) then
      pyRemoveAllFuel pat fuel (List.drop pat.length (c :: rest))
    else
      c :: pyRemoveAllFuel pat fuel rest

/-- Python `s.replace(pat, "")`: delete the non-overlapping occurrences of
`pat` found scanning left to right (`s.replace("", "") = s`). -/
def pyRemoveAll (pat s : List Char) : List Char :=
  pyRemoveAllFuel pat s.length s

/-! ## Documents (`langchain.schema.Document`)

A retrieved document is a text span plus a string-keyed metadata dict; the
code only ever reads string-valued metadata entries, so the dict is an
association list `List (String × String)` and an absent key reads as `none`
(Python `dict.get` returning `None`). -/

structure Doc where
  pageContent : List Char
  metadata : List (String × String)
deriving DecidableEq

/-- Python `doc.metadata.get(k)`. -/
def metaGet (d : Doc) (k : String) : Option String :=
  d.metadata.lookup k

/-! ## `RAGPipeline._calculate_confidence` (src/ai_tutor/rag_pipeline.py) -/

/-- Embedding of `RAGPipeline._calculate_confidence`.  Python floats
(`0.3`, `0.5`, `0.1`, `0.05`, `0.9`, `1.0`) are modelled as exact
rationals. -/
def calculateConfidence (sourceDocs : List Doc) : ℚ :=
  if sourceDocs = [] then 3/10
  else
    let baseConfidence := min (9/10 : ℚ) (1/2 + (sourceDocs.length : ℚ) * (1/10))
    let qualityBonus := sourceDocs.foldl
      (fun acc d =>
        (acc + (if metaGet d "file_type" = some "pdf" then (1/20 : ℚ) else 0)) +
        (if metaGet d "subject" ≠ some "general" then (1/20 : ℚ) else 0)) 0
    min 1 (baseConfidence + qualityBonus)

/-- Number of retrieved documents whose metadata `file_type` is `"pdf"`. -/
def pdfCount (docs : List Doc) : Nat :=
  docs.countP (fun d => decide (metaGet d "file_type" = some "pdf"))

/-- Number of retrieved documents whose metadata `subject` differs from
`"general"` (including documents with no `subject` entry at all). -/
def nonGeneralCount (docs : List Doc) : Nat :=
  docs.countP (fun d => decide (metaGet d "subject" ≠ some "general"))

theorem qualityBonus_foldl (docs : List Doc) (acc : ℚ) :
    docs.foldl
      (fun acc d =>
        (acc + (if metaGet d "file_type" = some "pdf" then (1/20 : ℚ) else 0)) +
        (if metaGet d "subject" ≠ some "general" then (1/20 : ℚ) else 0)) acc
    = acc + (pdfCount docs : ℚ)/20 + (nonGeneralCount docs : ℚ)/20 := by
  induction docs generalizing acc with
  | nil => simp [pdfCount, nonGeneralCount]
  | cons d rest ih =>
    simp only [List.foldl_cons, ih, pdfCount, nonGeneralCount, List.countP_cons]
    by_cases hp : metaGet d "file_type" = some "pdf" <;>
      by_cases hg : metaGet d "subject" = some "general" <;>
        simp [hp, hg] <;> ring

/-- C3: confidence is a weighted count of sources.  `_calculate_confidence`
returns `3/10` on an empty source list; otherwise it returns
`min 1 (min (9/10) (1/2 + n/10) + p/20 + g/20)` where `n` counts the
documents, `p` those whose `file_type` is `"pdf"`, and `g` those whose
`subject` differs from `"general"`; the result always lies in
`[3/10, 1]`. -/
theorem calculate_confidence_weighted_count (sourceDocs : List Doc) :
    (sourceDocs = [] → calculateConfidence sourceDocs = 3/10) ∧
    (sourceDocs ≠ [] →
      calculateConfidence sourceDocs =
        min 1 (min (9/10) (1/2 + (sourceDocs.length : ℚ)/10)
          + (pdfCount sourceDocs : ℚ)/20 + (nonGeneralCount sourceDocs : ℚ)/20)) ∧
    3/10 ≤ calculateConfidence sourceDocs ∧ calculateConfidence sourceDocs ≤ 1 := by
  refine ⟨fun h => by simp [calculateConfidence, h], fun h => ?_, ?_, ?_⟩
  · simp only [calculateConfidence, if_neg h, qualityBonus_foldl]
    ring_nf
  · by_cases h : sourceDocs = []
    · simp [calculateConfidence, h]
    · simp only [calculateConfidence, if_neg h, qualityBonus_foldl]
      have hb : (3/10 : ℚ) ≤ min (9/10 : ℚ) (1/2 + (sourceDocs.length : ℚ) * (1/10)) := by
        refine le_min (by norm_num) ?_
        have : (0 : ℚ) ≤ (sourceDocs.length : ℚ) := by positivity
        linarith
      have hp : (0 : ℚ) ≤ (pdfCount sourceDocs : ℚ)/20 := by positivity
      have hg : (0 : ℚ) ≤ (nonGeneralCount sourceDocs : ℚ)/20 := by positivity
      refine le_min (by norm_num) ?_
      linarith
  · by_cases h : sourceDocs = []
    · simp [calculateConfidence, h]
      norm_num
    · simp only [calculateConfidence, if_neg h]
      exact min_le_left _ _

/-- Witness for C3: one retrieved pdf document on a non-general subject
yields confidence `min 1 (min (9/10) (6/10) + 1/20 + 1/20) = 7/10`. -/
theorem calculate_confidence_weighted_count_witness :
    calculateConfidence [⟨['x'], [("file_type", "pdf"), ("subject", "math")]⟩] = 7/10 ∧
    (3/10 : ℚ) ≤ calculateConfidence [⟨['x'], [("file_type", "pdf"), ("subject", "math")]⟩] := by
  have h := calculate_confidence_weighted_count
    [⟨['x'], [("file_type", "pdf"), ("subject", "math")]⟩]
  refine ⟨?_, h.2.2.1⟩
  rw [h.2.1 (by decide)]
  have hp : pdfCount [⟨['x'], [("file_type", "pdf"), ("subject", "math")]⟩] = 1 := by decide
  have hg : nonGeneralCount [⟨['x'], [("file_type", "pdf"), ("subject", "math")]⟩] = 1 := by
    decide
  rw [hp, hg]
  norm_num

/-! ## `VectorStoreManager.similarity_search` (src/utils/vector_store.py)

The FAISS store is abstracted as the similarity-ordered list `rankAll` of
documents it would return for the given query: `vector_store.similarity_search(query, k)`
is `rankAll.take k`. -/

/-- Python `all(doc.metadata.get(key) == value for key, value in filter_dict.items())`. -/
def matchesFilter (d : Doc) (filterDict : List (String × String)) : Bool :=
  filterDict.all (fun kv => metaGet d kv.1 == some kv.2)

/-- The post-filtering loop of `similarity_search`: walk the unfiltered
results, append each match to `filtered_results`, and break as soon as `k`
matches are collected. -/
def similarityFilterLoop (filterDict : List (String × String)) (k : Nat) :
    List Doc → List Doc → List Doc
  | [], filteredResults => filteredResults
  | d :: rest, filteredResults =>
    if matchesFilter d filterDict then
      if k ≤ filteredResults.length + 1 then filteredResults ++ [d]
      else similarityFilterLoop filterDict k rest (filteredResults ++ [d])
    else similarityFilterLoop filterDict k rest filteredResults

/-- Embedding of `VectorStoreManager.similarity_search`: with a (truthy,
i.e. non-empty) `filter_dict`, fetch the top `k*2` unfiltered results,
post-filter them, and return at most `k`; otherwise a plain top-`k` search. -/
def similaritySearch (rankAll : List Doc) (k : Nat)
    (filterDict : List (String × String)) : List Doc :=
  if filterDict ≠ [] then
    (similarityFilterLoop filterDict k (rankAll.take (k * 2)) []).take k
  else
    rankAll.take k

theorem similarityFilterLoop_eq (filterDict : List (String × String)) (k : Nat) :
    ∀ (docs acc : List Doc), acc.length < k →
      similarityFilterLoop filterDict k docs acc
        = acc ++ (docs.filter (fun d => matchesFilter d filterDict)).take (k - acc.length) := by
  intro docs
  induction docs with
  | nil => intro acc _; simp [similarityFilterLoop]
  | cons d rest ih =>
    intro acc hacc
    by_cases hm : matchesFilter d filterDict
    · by_cases hk : k ≤ acc.length + 1
      · have hk2 : k = acc.length + 1 := le_antisymm hk hacc
        simp [similarityFilterLoop, hm, hk, hk2, List.filter_cons]
      · have h1 : (acc ++ [d]).length < k := by simp; omega
        have := ih (acc ++ [d]) h1
        simp only [similarityFilterLoop, hm, if_true, if_neg hk, this, List.filter_cons]
        have htake : k - acc.length = (k - (acc.length + 1)) + 1 := by omega
        simp [htake, List.take_succ_cons]
    · have hstep : similarityFilterLoop filterDict k (d :: rest) acc
          = similarityFilterLoop filterDict k rest acc := by
        simp [similarityFilterLoop, hm]
      rw [hstep, ih acc hacc]
      simp [List.filter_cons, hm]

/-- C4: metadata post-filtering is sound and bounded.  With `k ≥ 1` and a
non-empty `filter_dict`, every returned document satisfies every key-value
pair of the filter, at most `k` documents are returned, and the result is
exactly the first matching documents, in similarity order, among the top
`2*k` unfiltered results. -/
theorem similarity_search_post_filtering (rankAll : List Doc) (k : Nat)
    (filterDict : List (String × String)) (hk : 1 ≤ k) (hf : filterDict ≠ []) :
    (∀ d ∈ similaritySearch rankAll k filterDict, matchesFilter d filterDict = true) ∧
    (similaritySearch rankAll k filterDict).length ≤ k ∧
    similaritySearch rankAll k filterDict
      = ((rankAll.take (2 * k)).filter (fun d => matchesFilter d filterDict)).take k := by
  have hmain : similaritySearch rankAll k filterDict
      = ((rankAll.take (2 * k)).filter (fun d => matchesFilter d filterDict)).take k := by
    simp only [similaritySearch, if_pos hf]
    rw [similarityFilterLoop_eq filterDict k _ [] (by simpa using hk)]
    simp [Nat.mul_comm, List.take_take]
  refine ⟨?_, ?_, hmain⟩
  · intro d hd
    rw [hmain] at hd
    have hd2 := List.mem_of_mem_take hd
    simpa using List.of_mem_filter hd2
  · rw [hmain]
    exact List.length_take_le _ _

/-- Witness for C4 at `k = 1`, a two-entry filter, and three candidate
documents: only the matching document is returned. -/
theorem similarity_search_post_filtering_witness :
    similaritySearch
      [⟨['a'], [("subject", "math")]⟩,
       ⟨['b'], [("subject", "math"), ("file_type", "pdf")]⟩,
       ⟨['c'], [("subject", "math"), ("file_type", "pdf")]⟩]
      1 [("subject", "math"), ("file_type", "pdf")]
      = [⟨['b'], [("subject", "math"), ("file_type", "pdf")]⟩] ∧ (1 : Nat) ≤ 1 := by
  have h := similarity_search_post_filtering
    [⟨['a'], [("subject", "math")]⟩,
     ⟨['b'], [("subject", "math"), ("file_type", "pdf")]⟩,
     ⟨['c'], [("subject", "math"), ("file_type", "pdf")]⟩]
    1 [("subject", "math"), ("file_type", "pdf")] (by decide) (by decide)
  refine ⟨?_, le_refl 1⟩
  rw [h.2.2]
  decide

/-! ## `DocumentProcessor._extract_subject_from_filename` (src/utils/document_processor.py) -/

/-- Python `os.path.basename` on a POSIX path: the segment after the last
`'/'`. -/
def basename (path : List Char) : List Char :=
  path.foldl (fun acc c => if c = '/' then [] else acc ++ [c]) []

/-- The fixed subject keyword table of `_extract_subject_from_filename`,
in the insertion (= iteration) order of the Python dict. -/
def subjectTable : List (String × List String) :=
  [("math", ["math", "mathematics", "algebra", "geometry", "calculus"]),
   ("science", ["science", "physics", "chemistry", "biology"]),
   ("history", ["history", "social", "studies"]),
   ("english", ["english", "literature", "language", "writing"]),
   ("computer", ["computer", "programming", "coding", "cs"])]

/-- Python `any(keyword in filename for keyword in keywords)`. -/
def entryMatches (filename : List Char) (entry : String × List String) : Bool :=
  entry.2.any (fun kw => hasSub kw.toList filename)

/-- Embedding of `_extract_subject_from_filename`: lowercase the basename
and return the first subject of the table one of whose keywords occurs in
it, or `"general"`. -/
def extractSubjectFromFilename (filePath : List Char) : String :=
  match subjectTable.find? (entryMatches (lowerStr (basename filePath))) with
  | some entry => entry.1
  | none => "general"

theorem subjectTable_getD_0 :
    subjectTable.getD 0 ("", [])
      = ("math", ["math", "mathematics", "algebra", "geometry", "calculus"]) := rfl

theorem subjectTable_getD_1 :
    subjectTable.getD 1 ("", [])
      = ("science", ["science", "physics", "chemistry", "biology"]) := rfl

theorem subjectTable_getD_2 :
    subjectTable.getD 2 ("", []) = ("history", ["history", "social", "studies"]) := rfl

theorem subjectTable_getD_3 :
    subjectTable.getD 3 ("", [])
      = ("english", ["english", "literature", "language", "writing"]) := rfl

theorem subjectTable_getD_4 :
    subjectTable.getD 4 ("", [])
      = ("computer", ["computer", "programming", "coding", "cs"]) := rfl

/-- C8: subject tagging from filename keywords.  The label is always one of
the six fixed labels; it is `"general"` exactly when no keyword of the
table occurs in the lowercased basename; and when an entry matches while
all earlier entries do not, that entry's subject is returned (first match
in the order math, science, history, english, computer). -/
theorem extract_subject_first_match (filePath : List Char) :
    extractSubjectFromFilename filePath
      ∈ ["math", "science", "history", "english", "computer", "general"] ∧
    (extractSubjectFromFilename filePath = "general" ↔
      ∀ entry ∈ subjectTable, entryMatches (lowerStr (basename filePath)) entry = false) ∧
    (∀ i, i < subjectTable.length →
      entryMatches (lowerStr (basename filePath)) (subjectTable.getD i ("", [])) = true →
      (∀ j, j < i →
        entryMatches (lowerStr (basename filePath)) (subjectTable.getD j ("", [])) = false) →
      extractSubjectFromFilename filePath = (subjectTable.getD i ("", [])).1) := by
  refine ⟨?_, ⟨?_, ?_⟩, ?_⟩
  · unfold extractSubjectFromFilename
    rcases hfind : subjectTable.find? (entryMatches (lowerStr (basename filePath))) with
      _ | entry
    · simp
    · have hmem := List.mem_of_find?_eq_some hfind
      simp only [subjectTable, List.mem_cons, List.not_mem_nil, or_false] at hmem
      rcases hmem with h | h | h | h | h <;> subst h <;> simp
  · intro hgen entry hentry
    by_contra hmatch
    rw [Bool.not_eq_false] at hmatch
    rcases ho : subjectTable.find? (entryMatches (lowerStr (basename filePath))) with _ | e
    · have := List.find?_eq_none.mp ho entry hentry
      simp [hmatch] at this
    · have hmem := List.mem_of_find?_eq_some ho
      unfold extractSubjectFromFilename at hgen
      rw [ho] at hgen
      simp only at hgen
      simp only [subjectTable, List.mem_cons, List.not_mem_nil, or_false] at hmem
      rcases hmem with h | h | h | h | h <;> subst h <;> simp_all
  · intro hall
    unfold extractSubjectFromFilename
    rw [List.find?_eq_none.mpr (fun x hx => by simp [hall x hx])]
  · intro i hi hmatch hbefore
    have hi5 : i < 5 := by simpa [subjectTable] using hi
    interval_cases i
    · rw [subjectTable_getD_0] at hmatch ⊢
      unfold extractSubjectFromFilename
      rw [show subjectTable
          = ("math", ["math", "mathematics", "algebra", "geometry", "calculus"])
            :: subjectTable.tail from rfl]
      rw [List.find?_cons_of_pos _ hmatch]
    · have h0 := hbefore 0 (by omega)
      rw [subjectTable_getD_0] at h0
      rw [subjectTable_getD_1] at hmatch ⊢
      unfold extractSubjectFromFilename
      rw [show subjectTable.find? (entryMatches (lowerStr (basename filePath)))
          = some ("science", ["science", "physics", "chemistry", "biology"]) from by
        rw [show subjectTable = subjectTable from rfl, subjectTable]
        rw [List.find?_cons_of_neg _ (by simp [h0]), List.find?_cons_of_pos _ hmatch]]
    · have h0 := hbefore 0 (by omega)
      have h1 := hbefore 1 (by omega)
      rw [subjectTable_getD_0] at h0
      rw [subjectTable_getD_1] at h1
      rw [subjectTable_getD_2] at hmatch ⊢
      unfold extractSubjectFromFilename
      rw [show subjectTable.find? (entryMatches (lowerStr (basename filePath)))
          = some ("history", ["history", "social", "studies"]) from by
        rw [subjectTable]
        rw [List.find?_cons_of_neg _ (by simp [h0]), List.find?_cons_of_neg _ (by simp [h1]),
          List.find?_cons_of_pos _ hmatch]]
    · have h0 := hbefore 0 (by omega)
      have h1 := hbefore 1 (by omega)
      have h2 := hbefore 2 (by omega)
      rw [subjectTable_getD_0] at h0
      rw [subjectTable_getD_1] at h1
      rw [subjectTable_getD_2] at h2
      rw [subjectTable_getD_3] at hmatch ⊢
      unfold extractSubjectFromFilename
      rw [show subjectTable.find? (entryMatches (lowerStr (basename filePath)))
          = some ("english", ["english", "literature", "language", "writing"]) from by
        rw [subjectTable]
        rw [List.find?_cons_of_neg _ (by simp [h0]), List.find?_cons_of_neg _ (by simp [h1]),
          List.find?_cons_of_neg _ (by simp [h2]), List.find?_cons_of_pos _ hmatch]]
    · have h0 := hbefore 0 (by omega)
      have h1 := hbefore 1 (by omega)
      have h2 := hbefore 2 (by omega)
      have h3 := hbefore 3 (by omega)
      rw [subjectTable_getD_0] at h0
      rw [subjectTable_getD_1] at h1
      rw [subjectTable_getD_2] at h2
      rw [subjectTable_getD_3] at h3
      rw [subjectTable_getD_4] at hmatch ⊢
      unfold extractSubjectFromFilename
      rw [show subjectTable.find? (entryMatches (lowerStr (basename filePath)))
          = some ("computer", ["computer", "programming", "coding", "cs"]) from by
        rw [subjectTable]
        rw [List.find?_cons_of_neg _ (by simp [h0]), List.find?_cons_of_neg _ (by simp [h1]),
          List.find?_cons_of_neg _ (by simp [h2]), List.find?_cons_of_neg _ (by simp [h3]),
          List.find?_cons_of_pos _ hmatch]]

/-- Witness for C8: `"notes/Algebra_Homework.txt"` is tagged `"math"` via
the first table entry. -/
theorem extract_subject_first_match_witness :
    extractSubjectFromFilename ("notes/Algebra_Homework.txt".toList) = "math" := by
  have h := (extract_subject_first_match ("notes/Algebra_Homework.txt".toList)).2.2
    0 (by decide) (by decide) (fun j hj => absurd hj (by omega))
  simpa using h

/-! ## `LLMManager._initialize_model` (src/ai_tutor/llm_manager.py)

The three external providers can fail at construction time; each failure is
an oracle boolean.  `_initialize_fallback_model` constructs a local
`FakeListLLM` with a fixed response list and cannot fail. -/

/-- The backend provider recorded in `self.provider` after initialization. -/
inductive Provider where
  | huggingface_hub
  | local_hf_pipeline
  | gemini
  | fallback_fake_llm
deriving DecidableEq

/-- Constructor arguments of `LLMManager`. -/
structure LLMConfig where
  modelName : String
  geminiApiKey : String
  huggingfaceApiToken : String
  useLocal : Bool
deriving DecidableEq

/-- The guard of the Hugging Face Hub branch: a (truthy, i.e. non-empty)
token, and the model name contains `"/"` or its lowercasing contains
`"mistral"`. -/
def hubBranch (c : LLMConfig) : Bool :=
  (c.huggingfaceApiToken ≠ "") &&
    (hasSub ['/'] c.modelName.toList || hasSub "mistral".toList (lowerStr c.modelName.toList))

/-- The guard of the Gemini branch: a non-empty API key and the lowercased
model name contains `"gemini"`. -/
def geminiBranch (c : LLMConfig) : Bool :=
  (c.geminiApiKey ≠ "") && hasSub "gemini".toList (lowerStr c.modelName.toList)

/-- Embedding of `LLMManager._initialize_model`: pick a branch by the
credential guards, and on an initializer exception fall back to the
`FakeListLLM` provider. -/
def initializeModel (c : LLMConfig) (hubFails localFails geminiFails : Bool) : Provider :=
  let attempt : Option Provider :=
    if hubBranch c then
      if hubFails then none else some .huggingface_hub
    else if c.useLocal then
      if localFails then none else some .local_hf_pipeline
    else if geminiBranch c then
      if geminiFails then none else some .gemini
    else some .fallback_fake_llm
  match attempt with
  | some p => p
  | none => .fallback_fake_llm

/-- C5: backend selection is determined by available credentials, in the
order Hugging Face Hub, local pipeline, Gemini, fallback list model, and a
raising initializer is replaced by the fallback list model. -/
theorem initialize_model_backend_selection (c : LLMConfig)
    (hubFails localFails geminiFails : Bool) :
    (hubBranch c = true →
      initializeModel c hubFails localFails geminiFails
        = if hubFails then .fallback_fake_llm else .huggingface_hub) ∧
    (hubBranch c = false → c.useLocal = true →
      initializeModel c hubFails localFails geminiFails
        = if localFails then .fallback_fake_llm else .local_hf_pipeline) ∧
    (hubBranch c = false → c.useLocal = false → geminiBranch c = true →
      initializeModel c hubFails localFails geminiFails
        = if geminiFails then .fallback_fake_llm else .gemini) ∧
    (hubBranch c = false → c.useLocal = false → geminiBranch c = false →
      initializeModel c hubFails localFails geminiFails = .fallback_fake_llm) := by
  refine ⟨fun h1 => ?_, fun h1 h2 => ?_, fun h1 h2 h3 => ?_, fun h1 h2 h3 => ?_⟩
  · simp only [initializeModel, h1]
    cases hubFails <;> simp
  · simp only [initializeModel, h1, h2]
    cases localFails <;> simp
  · simp only [initializeModel, h1, h2, h3]
    cases geminiFails <;> simp
  · simp only [initializeModel, h1, h2, h3]
    simp

/-- Witness for C5: with a Hugging Face token and the repo-style name
`"mistralai/Mistral-7B"`, a failing hub initializer yields the fallback
provider while a succeeding one yields the hub provider; and with no
credentials at all the fallback list model is selected. -/
theorem initialize_model_backend_selection_witness :
    initializeModel ⟨"mistralai/Mistral-7B", "", "hf_token", false⟩ true false false
      = .fallback_fake_llm ∧
    initializeModel ⟨"mistralai/Mistral-7B", "", "hf_token", false⟩ false false false
      = .huggingface_hub ∧
    initializeModel ⟨"gemini-1.5-flash", "", "", false⟩ false false false
      = .fallback_fake_llm := by
  refine ⟨?_, ?_, ?_⟩
  · have h := (initialize_model_backend_selection
      ⟨"mistralai/Mistral-7B", "", "hf_token", false⟩ true false false).1 (by decide)
    simpa using h
  · have h := (initialize_model_backend_selection
      ⟨"mistralai/Mistral-7B", "", "hf_token", false⟩ false false false).1 (by decide)
    simpa using h
  · exact (initialize_model_backend_selection
      ⟨"gemini-1.5-flash", "", "", false⟩ false false false).2.2.2
        (by decide) (by decide) (by decide)

/-! ## `ConversationMemoryManager` (src/utils/conversation_memory.py)

`datetime.now().isoformat()` is modelled by an explicit `now : String`
argument.  The `ConversationBufferWindowMemory` keeps its full message list
in `chat_memory` (the window `k` is applied on read), so `memory` is the
plain message list. -/

/-- The mutable student-profile record. -/
structure StudentProfile where
  learningStyle : String
  difficultyPreference : String
  subjectsOfInterest : List String
  commonMistakes : List String
  strengths : List String
  sessionCount : Nat
  lastSession : Option String
deriving DecidableEq

/-- The profile a fresh `ConversationMemoryManager` starts with. -/
def initialStudentProfile : StudentProfile :=
  ⟨"adaptive", "medium", [], [], [], 0, none⟩

/-- The metadata dict attached to an interaction.  The only key the code
reads is `subject`; an outer `none` means the key is absent, the inner
`Option` is the (possibly `None`) Python value.  The remaining keys the RAG
pipeline writes are carried opaquely. -/
structure InteractionMeta where
  subject : Option (Option String)
  numSources : Option Nat
  sources : Option (List String)
deriving DecidableEq

/-- The empty dict `{}` that `add_interaction` stores when `metadata` is `None`. -/
def emptyMeta : InteractionMeta := ⟨none, none, none⟩

/-- One stored conversation turn. -/
structure Interaction where
  timestamp : String
  humanInput : List Char
  aiResponse : List Char
  metadata : InteractionMeta
deriving DecidableEq

/-- A message in the LangChain chat memory. -/
inductive ChatMsg where
  | human (content : List Char)
  | ai (content : List Char)
deriving DecidableEq

/-- The state of a `ConversationMemoryManager`. -/
structure ManagerState where
  maxHistory : Nat
  memory : List ChatMsg
  studentProfile : StudentProfile
  conversationHistory : List Interaction
deriving DecidableEq

/-- A freshly constructed `ConversationMemoryManager(max_history)`. -/
def initialManager (maxHistory : Nat) : ManagerState :=
  ⟨maxHistory, [], initialStudentProfile, []⟩

/-- Python `any(word in input_lower for word in words)`. -/
def wordAny (words : List String) (s : List Char) : Bool :=
  words.any (fun w => hasSub w.toList s)

/-- Embedding of `_update_student_profile`.  Each Python statement writes a
distinct field, so the new record is assembled field by field: the subject
from the metadata is appended to `subjects_of_interest` when it is a truthy
string not already a member; keyword scans over the lowercased input set
the difficulty preference and learning style; the session count is
incremented and the last-session stamp refreshed. -/
def updateStudentProfile (humanInput : List Char) (metadata : Option InteractionMeta)
    (now : String) (p : StudentProfile) : StudentProfile :=
  let subjects :=
    match metadata with
    | some m =>
      match m.subject with
      | some (some s) =>
        if s ≠ "" then
          if s ∈ p.subjectsOfInterest then p.subjectsOfInterest
          else p.subjectsOfInterest ++ [s]
        else p.subjectsOfInterest
      | _ => p.subjectsOfInterest
    | none => p.subjectsOfInterest
  let inputLower := lowerStr humanInput
  let difficulty :=
    if wordAny ["easy", "simple", "basic"] inputLower then "easy"
    else if wordAny ["hard", "difficult", "challenging", "advanced"] inputLower then "hard"
    else p.difficultyPreference
  let style :=
    if wordAny ["example", "show me", "demonstrate"] inputLower then "visual"
    else if wordAny ["explain", "why", "how"] inputLower then "analytical"
    else if wordAny ["practice", "try", "do"] inputLower then "hands-on"
    else p.learningStyle
  { learningStyle := style
    difficultyPreference := difficulty
    subjectsOfInterest := subjects
    commonMistakes := p.commonMistakes
    strengths := p.strengths
    sessionCount := p.sessionCount + 1
    lastSession := some now }

/-- The interaction record `add_interaction` builds: timestamp, inputs, and
the metadata dict (Python `metadata or {}`). -/
def mkInteraction (now : String) (humanInput aiResponse : List Char)
    (metadata : Option InteractionMeta) : Interaction :=
  ⟨now, humanInput, aiResponse, metadata.getD emptyMeta⟩

/-- Embedding of `add_interaction`: push the two chat messages, append the
new interaction record, truncate the history with the Python slice
`history[-max_history * 2:]` once its length exceeds `max_history * 2`, and
update the student profile. -/
def addInteraction (st : ManagerState) (humanInput aiResponse : List Char)
    (metadata : Option InteractionMeta) (now : String) : ManagerState :=
  let memory := st.memory ++ [ChatMsg.human humanInput, ChatMsg.ai aiResponse]
  let interaction := mkInteraction now humanInput aiResponse metadata
  let history := st.conversationHistory ++ [interaction]
  let history :=
    if history.length > st.maxHistory * 2 then pySliceLast (st.maxHistory * 2) history
    else history
  { st with
    memory := memory
    conversationHistory := history
    studentProfile := updateStudentProfile humanInput metadata now st.studentProfile }

/-- C2 (amended): bounded conversation history with oldest-first eviction,
for every `max_history ≥ 1`.  Each `add_interaction` appends the new record
and keeps exactly the most recent `max_history * 2` records in their
original order (a suffix of the appended history), so the length never
exceeds `max_history * 2`.  At `max_history = 0` the Python slice `[-0:]`
keeps the whole list and the bound fails. -/
theorem conversation_history_bounded_eviction (st : ManagerState)
    (humanInput aiResponse : List Char) (metadata : Option InteractionMeta) (now : String)
    (hmax : 1 ≤ st.maxHistory) :
    (addInteraction st humanInput aiResponse metadata now).conversationHistory
      = (st.conversationHistory
          ++ [mkInteraction now humanInput aiResponse metadata]).drop
          (st.conversationHistory.length + 1 - st.maxHistory * 2) ∧
    (addInteraction st humanInput aiResponse metadata now).conversationHistory.length
      ≤ st.maxHistory * 2 := by
  have hm0 : st.maxHistory * 2 ≠ 0 := by omega
  have hist_eq : (addInteraction st humanInput aiResponse metadata now).conversationHistory
      = if (st.conversationHistory
            ++ [mkInteraction now humanInput aiResponse metadata]).length
            > st.maxHistory * 2
        then pySliceLast (st.maxHistory * 2)
          (st.conversationHistory ++ [mkInteraction now humanInput aiResponse metadata])
        else st.conversationHistory ++ [mkInteraction now humanInput aiResponse metadata] :=
    rfl
  rw [hist_eq]
  by_cases hgt :
      (st.conversationHistory ++ [mkInteraction now humanInput aiResponse metadata]).length
        > st.maxHistory * 2
  · rw [if_pos hgt]
    unfold pySliceLast
    rw [if_neg hm0]
    simp only [List.length_append, List.length_cons, List.length_nil] at hgt
    constructor
    · congr 1
      simp
    · rw [List.length_drop]
      simp only [List.length_append, List.length_cons, List.length_nil]
      omega
  · rw [if_neg hgt]
    simp only [List.length_append, List.length_cons, List.length_nil] at hgt
    constructor
    · rw [Nat.sub_eq_zero_of_le (by omega), List.drop_zero]
    · simp only [List.length_append, List.length_cons, List.length_nil]
      omega

/-- Counterexample for C2 as stated: with `max_history = 0` the history is
never truncated (`history[-0:]` is the whole list), so after one call its
length is `1 > 2 * 0`. -/
theorem conversation_history_bound_fails_at_zero :
    ¬ ((addInteraction (initialManager 0) ['q'] ['a'] none "t").conversationHistory.length
        ≤ 2 * 0) := by decide

/-- Witness for C2: with `max_history = 1` the bound `≤ 1 * 2` holds after
a concrete call. -/
theorem conversation_history_bounded_eviction_witness :
    (addInteraction (initialManager 1) ['q'] ['a'] none "t").conversationHistory.length
      ≤ 1 * 2 :=
  (conversation_history_bounded_eviction (initialManager 1) ['q'] ['a'] none "t"
    (by decide)).2

/-! ## `_update_student_profile` invariants (C6) -/

/-- Arguments of one `add_interaction` call. -/
structure AddCall where
  humanInput : List Char
  aiResponse : List Char
  metadata : Option InteractionMeta
  now : String
deriving DecidableEq

/-- A sequence of `add_interaction` calls applied to a manager state. -/
def applyAddCalls (st : ManagerState) (calls : List AddCall) : ManagerState :=
  calls.foldl (fun s c => addInteraction s c.humanInput c.aiResponse c.metadata c.now) st

theorem updateStudentProfile_subjects (p : StudentProfile) (humanInput : List Char)
    (metadata : Option InteractionMeta) (now : String) :
    (updateStudentProfile humanInput metadata now p).subjectsOfInterest
        = p.subjectsOfInterest ∨
    ∃ s, s ∉ p.subjectsOfInterest ∧
      (updateStudentProfile humanInput metadata now p).subjectsOfInterest
        = p.subjectsOfInterest ++ [s] := by
  unfold updateStudentProfile
  rcases metadata with _ | m
  · left; rfl
  · rcases hms : m.subject with _ | s2
    · left; simp [hms]
    · rcases s2 with _ | s
      · left; simp [hms]
      · by_cases hne : s = ""
        · left; simp [hms, hne]
        · by_cases hmem : s ∈ p.subjectsOfInterest
          · left; simp [hms, hne, hmem]
          · right; exact ⟨s, hmem, by simp [hms, hne, hmem]⟩

theorem updateStudentProfile_subjects_nodup (p : StudentProfile) (humanInput : List Char)
    (metadata : Option InteractionMeta) (now : String)
    (hnd : p.subjectsOfInterest.Nodup) :
    (updateStudentProfile humanInput metadata now p).subjectsOfInterest.Nodup := by
  rcases updateStudentProfile_subjects p humanInput metadata now with h | ⟨s, hs, h⟩
  · rw [h]; exact hnd
  · rw [h]
    simp [List.nodup_append, hnd, hs]

/-- C6: student-profile lists monotonically accumulate with membership-based
dedup.  Along every sequence of `add_interaction` calls from a fresh
manager, `subjects_of_interest` stays duplicate-free; and across any single
call the old subject list is a prefix of the new one, `strengths` and
`common_mistakes` are untouched, and `session_count` grows by exactly 1. -/
theorem student_profile_monotone_accumulation :
    (∀ (maxHistory : Nat) (calls : List AddCall),
      (applyAddCalls (initialManager maxHistory) calls).studentProfile.subjectsOfInterest.Nodup) ∧
    (∀ (st : ManagerState) (humanInput aiResponse : List Char)
        (metadata : Option InteractionMeta) (now : String),
      (addInteraction st humanInput aiResponse metadata now).studentProfile.sessionCount
        = st.studentProfile.sessionCount + 1 ∧
      st.studentProfile.subjectsOfInterest
        <+: (addInteraction st humanInput aiResponse metadata now).studentProfile.subjectsOfInterest ∧
      (addInteraction st humanInput aiResponse metadata now).studentProfile.strengths
        = st.studentProfile.strengths ∧
      (addInteraction st humanInput aiResponse metadata now).studentProfile.commonMistakes
        = st.studentProfile.commonMistakes) := by
  constructor
  · intro maxHistory calls
    suffices h : ∀ (calls : List AddCall) (st : ManagerState),
        st.studentProfile.subjectsOfInterest.Nodup →
        (applyAddCalls st calls).studentProfile.subjectsOfInterest.Nodup by
      exact h calls (initialManager maxHistory) (by simp [initialManager, initialStudentProfile])
    intro calls
    induction calls with
    | nil => intro st h; exact h
    | cons c rest ih =>
      intro st h
      exact ih _ (updateStudentProfile_subjects_nodup _ _ _ _ h)
  · intro st humanInput aiResponse metadata now
    refine ⟨rfl, ?_, rfl, rfl⟩
    rcases updateStudentProfile_subjects st.studentProfile humanInput metadata now with
      h | ⟨s, _, h⟩
    · exact h ▸ List.prefix_rfl
    · exact h ▸ List.prefix_append _ _

/-! ## `save_session` / `load_session` (C7) -/

/-- The JSON payload written by `save_session`. -/
structure SessionData where
  studentProfile : StudentProfile
  conversationHistory : List Interaction
  timestamp : String
deriving DecidableEq

/-- Embedding of `save_session` (the file holds exactly this payload). -/
def saveSession (now : String) (st : ManagerState) : SessionData :=
  ⟨st.studentProfile, st.conversationHistory, now⟩

/-- The message list `load_session` rebuilds: a user/ai message pair per
interaction, in order. -/
def rebuildMemory (history : List Interaction) : List ChatMsg :=
  history.foldl (fun m i => m ++ [ChatMsg.human i.humanInput, ChatMsg.ai i.aiResponse]) []

/-- Embedding of `load_session`: restore profile and history from the
payload and rebuild the cleared LangChain memory from the Python slice
`history[-max_history:]`. -/
def loadSession (st : ManagerState) (data : SessionData) : ManagerState :=
  { st with
    studentProfile := data.studentProfile
    conversationHistory := data.conversationHistory
    memory := rebuildMemory (pySliceLast st.maxHistory data.conversationHistory) }

/-- C7 (amended): session save/load round-trip.  Loading a saved session
restores `student_profile` and `conversation_history` exactly; the window
memory is rebuilt from the last `max_history` interactions of the restored
history whenever the loading manager's `max_history ≥ 1`, and from the
whole restored history when `max_history = 0` (the Python slice `[-0:]`). -/
theorem session_save_load_round_trip (saver loader : ManagerState) (now : String) :
    (loadSession loader (saveSession now saver)).studentProfile = saver.studentProfile ∧
    (loadSession loader (saveSession now saver)).conversationHistory
      = saver.conversationHistory ∧
    (1 ≤ loader.maxHistory →
      (loadSession loader (saveSession now saver)).memory
        = rebuildMemory
            (saver.conversationHistory.drop
              (saver.conversationHistory.length - loader.maxHistory))) ∧
    (loader.maxHistory = 0 →
      (loadSession loader (saveSession now saver)).memory
        = rebuildMemory saver.conversationHistory) := by
  refine ⟨rfl, rfl, fun h1 => ?_, fun h0 => ?_⟩
  · simp only [loadSession, saveSession, pySliceLast]
    rw [if_neg (by omega)]
  · simp only [loadSession, saveSession, pySliceLast]
    rw [if_pos h0]

/-- Counterexample for C7 as stated: a loader with `max_history = 0`
rebuilds the memory from the whole restored history (`[-0:]` is the whole
list), not from the last `0` interactions, which would leave it empty. -/
theorem session_round_trip_zero_counterexample :
    (loadSession (initialManager 0)
        (saveSession "t2"
          ⟨3, [], initialStudentProfile, [⟨"t1", ['q'], ['a'], emptyMeta⟩]⟩)).memory
      ≠ rebuildMemory
          (([⟨"t1", ['q'], ['a'], emptyMeta⟩] : List Interaction).drop
            (([⟨"t1", ['q'], ['a'], emptyMeta⟩] : List Interaction).length - 0)) := by
  decide

/-- Witness for C7: a loader with `max_history = 1` rebuilds the memory from
the last interaction of a two-turn saved history. -/
theorem session_save_load_round_trip_witness :
    (loadSession (initialManager 1)
        (saveSession "t3"
          ⟨5, [], initialStudentProfile,
            [⟨"t1", ['q'], ['a'], emptyMeta⟩, ⟨"t2", ['r'], ['b'], emptyMeta⟩]⟩)).memory
      = rebuildMemory
          (([⟨"t1", ['q'], ['a'], emptyMeta⟩,
             ⟨"t2", ['r'], ['b'], emptyMeta⟩] : List Interaction).drop
            (([⟨"t1", ['q'], ['a'], emptyMeta⟩,
               ⟨"t2", ['r'], ['b'], emptyMeta⟩] : List Interaction).length - 1)) :=
  (session_save_load_round_trip
    ⟨5, [], initialStudentProfile,
      [⟨"t1", ['q'], ['a'], emptyMeta⟩, ⟨"t2", ['r'], ['b'], emptyMeta⟩]⟩
    (initialManager 1) "t3").2.2.1 (by decide)

/-! ## `get_student_profile_summary` and `RAGPipeline.query` (C1) -/

/-- The `_clean` helper of `get_student_profile_summary`: keep the truthy
(non-empty) strings. -/
def cleanItems (items : List String) : List String :=
  items.filter (fun x => x ≠ "")

/-- Embedding of `get_student_profile_summary`. -/
def profileSummary (p : StudentProfile) : String :=
  let subjects := cleanItems p.subjectsOfInterest
  let strengths := cleanItems p.strengths
  let mistakes := cleanItems p.commonMistakes
  let parts :=
    (if subjects ≠ [] then ["Interested in: " ++ String.intercalate ", " subjects] else [])
    ++ (if strengths ≠ [] then ["Strengths: " ++ String.intercalate ", " strengths] else [])
    ++ (if mistakes ≠ []
        then ["Areas for improvement: " ++ String.intercalate ", " mistakes] else [])
    ++ ["Learning style: " ++ p.learningStyle,
        "Preferred difficulty: " ++ p.difficultyPreference,
        "Sessions completed: " ++ toString p.sessionCount]
  String.intercalate " | " parts

/-- One formatted source of `_format_sources`: 1-based id, a 200-character
preview, and the three metadata fields with their display defaults. -/
structure FormattedSource where
  id : Nat
  content : List Char
  sourceFile : String
  subject : String
  topic : String
deriving DecidableEq

/-- Embedding of `_format_sources`. -/
def formatSources (sourceDocs : List Doc) : List FormattedSource :=
  sourceDocs.mapIdx (fun i d =>
    { id := i + 1
      content :=
        if d.pageContent.length > 200 then d.pageContent.take 200 ++ "...".toList
        else d.pageContent
      sourceFile := (metaGet d "source_file").getD "Unknown"
      subject := (metaGet d "subject").getD "General"
      topic := (metaGet d "topic").getD "N/A" })

/-- What the retrieval chain (either the conversational retrieval chain or
the `LLMChain` fallback) produces on success: the `answer` value, if the
key is present, and the `source_documents` list (empty for the fallback
chain). -/
structure ChainOutput where
  answer : Option (List Char)
  sourceDocuments : List Doc
deriving DecidableEq

/-- The response dictionary of `RAGPipeline.query`: its four keys are the
four fields. -/
structure RagResponse where
  answer : List Char
  sources : List FormattedSource
  studentProfile : String
  confidence : ℚ
deriving DecidableEq

/-- Default used by `result.get("answer", ...)`. -/
def defaultAnswerMsg : List Char :=
  "I\x27m sorry, I couldn\x27t generate a response.".toList

/-- The fixed apology of the last fallback stage of `query`. -/
def ragApologyMsg : List Char :=
  ("I apologize, but I\x27m having trouble processing your question right now. "
    ++ "Could you please try rephrasing it?").toList

/-- Embedding of `RAGPipeline.query`.  The chain invocation and
`llm_manager.generate_response(question)` are oracles: `chainResult` is
the outcome of running the chain on this query, `llmResult` the outcome of
the retrieval-free fallback generation on the bare question.  On chain
success the interaction is recorded in memory and the response assembled
from the source documents; on chain failure the fallback answer is
returned with no sources and confidence `3/10`; if the fallback also
raises, the fixed apology with confidence `0`. -/
def ragQuery (st : ManagerState) (question : List Char) (subjectFilter : Option String)
    (now : String) (chainResult : Except String ChainOutput)
    (llmResult : Except String (List Char)) : RagResponse × ManagerState :=
  match chainResult with
  | .ok out =>
    let answer := out.answer.getD defaultAnswerMsg
    let sourceDocs := out.sourceDocuments
    let metadata : InteractionMeta :=
      ⟨some subjectFilter, some sourceDocs.length,
        some (sourceDocs.map (fun d => (metaGet d "source_file").getD "unknown"))⟩
    let st2 := addInteraction st question answer (some metadata) now
    ({ answer := answer
       sources := formatSources sourceDocs
       studentProfile := profileSummary st2.studentProfile
       confidence := calculateConfidence sourceDocs }, st2)
  | .error _ =>
    match llmResult with
    | .ok fallbackAnswer =>
      ({ answer := fallbackAnswer
         sources := []
         studentProfile := profileSummary st.studentProfile
         confidence := 3/10 }, st)
    | .error _ =>
      ({ answer := ragApologyMsg
         sources := []
         studentProfile := profileSummary st.studentProfile
         confidence := 0 }, st)

/-- C1: `query` is total with staged fallback.  It always returns a
response record with the four keys (the return type); on chain success the
answer, sources and confidence come from the chain output; if the chain
raises, the answer generated on the bare question is returned with no
sources and confidence `3/10` and the memory untouched (retrieval and
recording skipped); if that fallback also raises, the fixed apology with
confidence `0`. -/
theorem rag_query_staged_fallback (st : ManagerState) (question : List Char)
    (subjectFilter : Option String) (now : String)
    (chainResult : Except String ChainOutput) (llmResult : Except String (List Char)) :
    (∀ out, chainResult = Except.ok out →
      (ragQuery st question subjectFilter now chainResult llmResult).1.answer
          = out.answer.getD defaultAnswerMsg ∧
      (ragQuery st question subjectFilter now chainResult llmResult).1.sources
          = formatSources out.sourceDocuments ∧
      (ragQuery st question subjectFilter now chainResult llmResult).1.confidence
          = calculateConfidence out.sourceDocuments ∧
      (ragQuery st question subjectFilter now chainResult llmResult).2
          = addInteraction st question (out.answer.getD defaultAnswerMsg)
              (some ⟨some subjectFilter, some out.sourceDocuments.length,
                some (out.sourceDocuments.map
                  (fun d => (metaGet d "source_file").getD "unknown"))⟩) now) ∧
    (∀ e a, chainResult = Except.error e → llmResult = Except.ok a →
      (ragQuery st question subjectFilter now chainResult llmResult).1
          = ⟨a, [], profileSummary st.studentProfile, 3/10⟩ ∧
      (ragQuery st question subjectFilter now chainResult llmResult).2 = st) ∧
    (∀ e₁ e₂, chainResult = Except.error e₁ → llmResult = Except.error e₂ →
      (ragQuery st question subjectFilter now chainResult llmResult).1
          = ⟨ragApologyMsg, [], profileSummary st.studentProfile, 0⟩ ∧
      (ragQuery st question subjectFilter now chainResult llmResult).2 = st) := by
  refine ⟨fun out hc => ?_, fun e a hc hl => ?_, fun e₁ e₂ hc hl => ?_⟩
  · subst hc
    exact ⟨rfl, rfl, rfl, rfl⟩
  · subst hc; subst hl
    exact ⟨rfl, rfl⟩
  · subst hc; subst hl
    exact ⟨rfl, rfl⟩

/-- Witness for C1: concrete failing chains.  When the chain raises and the
fallback generation returns `"hi"`, the response is `("hi", [], ·, 3/10)`
and the memory is unchanged; when both raise, it is the apology with
confidence `0`. -/
theorem rag_query_staged_fallback_witness :
    (ragQuery (initialManager 2) ['q'] none "t" (Except.error "boom")
        (Except.ok ['h', 'i'])).1
      = ⟨['h', 'i'], [], profileSummary (initialManager 2).studentProfile, 3/10⟩ ∧
    (ragQuery (initialManager 2) ['q'] none "t" (Except.error "boom")
        (Except.error "also")).1
      = ⟨ragApologyMsg, [], profileSummary (initialManager 2).studentProfile, 0⟩ := by
  constructor
  · exact ((rag_query_staged_fallback (initialManager 2) ['q'] none "t"
      (Except.error "boom") (Except.ok ['h', 'i'])).2.1 "boom" ['h', 'i'] rfl rfl).1
  · exact ((rag_query_staged_fallback (initialManager 2) ['q'] none "t"
      (Except.error "boom") (Except.error "also")).2.2 "boom" "also" rfl rfl).1

/-! ## `EduSmartAITutor.chat` usage statistics (C9)
(src/ai_tutor/tutor_system.py) -/

/-- The tutor-system state relevant to the statistics invariant: the
initialization flag and the three counters of `system_stats`
(`documents_loaded` is untouched by `chat`). -/
structure TutorStats where
  isInitialized : Bool
  totalQueries : Nat
  successfulResponses : Nat
  failedResponses : Nat
deriving DecidableEq

/-- Embedding of `EduSmartAITutor.chat`, restricted to its effect on the
statistics.  The `rag_pipeline.query` call is an oracle: `.ok answer` is a
returned response with that `answer` value, `.error` an exception raised
during the call.  An uninitialized system returns early; otherwise
`total_queries` is incremented, then exactly one of the outcome counters. -/
def chatStep (st : TutorStats) (outcome : Except String (List Char)) : TutorStats :=
  if st.isInitialized then
    let st1 := { st with totalQueries := st.totalQueries + 1 }
    match outcome with
    | .ok answer =>
      if answer ≠ [] then
        { st1 with successfulResponses := st1.successfulResponses + 1 }
      else
        { st1 with failedResponses := st1.failedResponses + 1 }
    | .error _ => { st1 with failedResponses := st1.failedResponses + 1 }
  else st

/-- A fresh `EduSmartAITutor`'s statistics (all counters zero), with either
value of the initialization flag. -/
def initialTutorStats (isInitialized : Bool) : TutorStats :=
  ⟨isInitialized, 0, 0, 0⟩

theorem chatStep_preserves_invariant (st : TutorStats) (outcome : Except String (List Char))
    (h : st.totalQueries = st.successfulResponses + st.failedResponses) :
    (chatStep st outcome).totalQueries
      = (chatStep st outcome).successfulResponses + (chatStep st outcome).failedResponses := by
  unfold chatStep
  by_cases hi : st.isInitialized
  · simp only [hi, if_true]
    rcases outcome with e | a
    · simp only
      omega
    · by_cases ha : a = []
      · simp only [ha]
        simp
        omega
      · simp only [if_pos (by simp [ha] : (a ≠ []) = True)]
        simp [ha]
        omega
  · simp [hi, h]

/-- C9: usage-statistics accounting (implicit invariant).  After every
sequence of `chat` calls from a fresh system,
`total_queries = successful_responses + failed_responses`; an uninitialized
system changes no counter; an initialized call increments `total_queries`
by 1 together with exactly one of `successful_responses` (non-empty answer
returned) or `failed_responses` (empty answer or exception). -/
theorem chat_stats_accounting :
    (∀ (isInitialized : Bool) (outcomes : List (Except String (List Char))),
      (outcomes.foldl chatStep (initialTutorStats isInitialized)).totalQueries
        = (outcomes.foldl chatStep (initialTutorStats isInitialized)).successfulResponses
          + (outcomes.foldl chatStep (initialTutorStats isInitialized)).failedResponses) ∧
    (∀ (st : TutorStats) (outcome : Except String (List Char)),
      st.isInitialized = false → chatStep st outcome = st) ∧
    (∀ (st : TutorStats) (answer : List Char), st.isInitialized = true → answer ≠ [] →
      chatStep st (Except.ok answer)
        = { st with
            totalQueries := st.totalQueries + 1
            successfulResponses := st.successfulResponses + 1 }) ∧
    (∀ (st : TutorStats), st.isInitialized = true →
      chatStep st (Except.ok [])
        = { st with
            totalQueries := st.totalQueries + 1
            failedResponses := st.failedResponses + 1 }) ∧
    (∀ (st : TutorStats) (e : String), st.isInitialized = true →
      chatStep st (Except.error e)
        = { st with
            totalQueries := st.totalQueries + 1
            failedResponses := st.failedResponses + 1 }) := by
  refine ⟨?_, ?_, ?_, ?_, ?_⟩
  · intro isInitialized outcomes
    suffices h : ∀ (outcomes : List (Except String (List Char))) (st : TutorStats),
        st.totalQueries = st.successfulResponses + st.failedResponses →
        (outcomes.foldl chatStep st).totalQueries
          = (outcomes.foldl chatStep st).successfulResponses
            + (outcomes.foldl chatStep st).failedResponses by
      exact h outcomes (initialTutorStats isInitialized) rfl
    intro outcomes
    induction outcomes with
    | nil => intro st h; exact h
    | cons o rest ih =>
      intro st h
      exact ih _ (chatStep_preserves_invariant st o h)
  · intro st outcome h
    simp [chatStep, h]
  · intro st answer h ha
    simp [chatStep, h, ha]
  · intro st h
    simp [chatStep, h]
  · intro st e h
    simp [chatStep, h]

/-- Witness for C9: one successful, one empty-answer and one raising call
from a fresh initialized system leave the counters at `3 = 1 + 2`. -/
theorem chat_stats_accounting_witness :
    ([Except.ok ['o', 'k'], Except.ok [], Except.error "x"].foldl chatStep
        (initialTutorStats true)).totalQueries
      = ([Except.ok ['o', 'k'], Except.ok [], Except.error "x"].foldl chatStep
          (initialTutorStats true)).successfulResponses
        + ([Except.ok ['o', 'k'], Except.ok [], Except.error "x"].foldl chatStep
            (initialTutorStats true)).failedResponses ∧
    chatStep (initialTutorStats false) (Except.ok ['o', 'k'])
      = initialTutorStats false := by
  constructor
  · exact chat_stats_accounting.1 true [Except.ok ['o', 'k'], Except.ok [], Except.error "x"]
  · exact chat_stats_accounting.2.1 (initialTutorStats false) (Except.ok ['o', 'k']) rfl

/-! ## `LLMManager._clean_response` (C10)

The separator `". "` cannot overlap itself (its two characters differ), so
the number of its occurrences in a string is the number of positions
holding `'.'` followed by `' '`; `countDotSpace` counts exactly those
positions, and `splitDotSpace` is Python `response.split('. ')`. -/

/-- Number of occurrences of the separator `". "`. -/
def countDotSpace : List Char → Nat
  | [] => 0
  | c :: rest => (if c = '.' ∧ rest.head? = some ' ' then 1 else 0) + countDotSpace rest

/-- Python `response.split('. ')`: cut at each (leftmost-first) occurrence
of `". "`. -/
def splitDotSpace : List Char → List (List Char)
  | '.' :: ' ' :: rest => [] :: splitDotSpace rest
  | c :: rest =>
    match splitDotSpace rest with
    | [] => [[c]]
    | p :: ps => (c :: p) :: ps
  | [] => [[]]

/-- Python `'. '.join(sentences)`. -/
def joinDotSpace : List (List Char) → List Char
  | [] => []
  | [p] => p
  | p :: ps => p ++ '.' :: ' ' :: joinDotSpace ps

/-- The `<|endoftext|>` artifact token. -/
def endoftextToken : List Char := "<|endoftext|>".toList

/-- The `</s>` artifact token. -/
def closeSToken : List Char := "</s>".toList

/-- The `<s>` artifact token. -/
def openSToken : List Char := "<s>".toList

/-- The fixed clarification message substituted for an empty cleaned
response. -/
def clarificationMsg : List Char :=
  ("I\x27d be happy to help you with that! "
    ++ "Could you provide a bit more detail about what you\x27d like to learn?").toList

/-- Step 1 of `_clean_response`: if the original prompt occurs in the
response, delete its occurrences and strip. -/
def promptStep (response prompt : List Char) : List Char :=
  if hasSub prompt response then pyStrip (pyRemoveAll prompt response) else response

/-- Step 2 of `_clean_response`: delete the three artifact tokens, in the
order of the code. -/
def removeArtifacts (s : List Char) : List Char :=
  pyRemoveAll openSToken (pyRemoveAll closeSToken (pyRemoveAll endoftextToken s))

/-- Step 3 of `_clean_response`: an empty response becomes the fixed
clarification message (a whitespace-only response is truthy and passes). -/
def clarifyIfEmpty (s : List Char) : List Char :=
  if s = [] then clarificationMsg else s

/-- Step 4 of `_clean_response`: if `split('. ')` yields more than 4
sentences, keep the first 4, rejoined with `". "` and a final `'.'`. -/
def truncateSentences (s : List Char) : List Char :=
  if (splitDotSpace s).length > 4 then joinDotSpace ((splitDotSpace s).take 4) ++ ['.']
  else s

/-- Embedding of `LLMManager._clean_response`: steps 1-4 and the final
`strip()`. -/
def cleanResponse (response prompt : List Char) : List Char :=
  pyStrip (truncateSentences (clarifyIfEmpty (removeArtifacts (promptStep response prompt))))

theorem countDotSpace_nil : countDotSpace [] = 0 := rfl

theorem countDotSpace_cons (c : Char) (l : List Char) :
    countDotSpace (c :: l)
      = (if c = '.' ∧ l.head? = some ' ' then 1 else 0) + countDotSpace l := rfl

theorem countDotSpace_append_dot (a s : List Char) :
    countDotSpace (a ++ '.' :: s) = countDotSpace a + countDotSpace ('.' :: s) := by
  induction a with
  | nil => simp [countDotSpace_nil]
  | cons c a2 ih =>
    cases a2 with
    | nil =>
      show countDotSpace (c :: '.' :: s) = countDotSpace [c] + countDotSpace ('.' :: s)
      rw [countDotSpace_cons c ('.' :: s), countDotSpace_cons c []]
      rw [if_neg (by simp), if_neg (by simp), countDotSpace_nil]
    | cons d a3 =>
      show countDotSpace (c :: ((d :: a3) ++ '.' :: s))
          = countDotSpace (c :: d :: a3) + countDotSpace ('.' :: s)
      rw [countDotSpace_cons c ((d :: a3) ++ '.' :: s), countDotSpace_cons c (d :: a3)]
      rw [show ((d :: a3) ++ '.' :: s).head? = some d from rfl,
        show (d :: a3).head? = some d from rfl, ih]
      omega

theorem countDotSpace_le_cons (c : Char) (l : List Char) :
    countDotSpace l ≤ countDotSpace (c :: l) := by
  rw [countDotSpace_cons c l]
  omega

theorem countDotSpace_le_append_left (a b : List Char) :
    countDotSpace b ≤ countDotSpace (a ++ b) := by
  induction a with
  | nil => simp
  | cons c a2 ih => exact le_trans ih (countDotSpace_le_cons c (a2 ++ b))

theorem countDotSpace_le_append_right (a b : List Char) :
    countDotSpace a ≤ countDotSpace (a ++ b) := by
  induction a with
  | nil => simp [countDotSpace_nil]
  | cons c a2 ih =>
    cases a2 with
    | nil =>
      rw [countDotSpace_cons c [], if_neg (by simp), countDotSpace_nil]
      omega
    | cons d a3 =>
      show countDotSpace (c :: d :: a3) ≤ countDotSpace (c :: ((d :: a3) ++ b))
      rw [countDotSpace_cons c (d :: a3), countDotSpace_cons c ((d :: a3) ++ b)]
      rw [show ((d :: a3) ++ b).head? = some d from rfl,
        show (d :: a3).head? = some d from rfl]
      omega

theorem countDotSpace_pyStrip_le (s : List Char) :
    countDotSpace (pyStrip s) ≤ countDotSpace s := by
  have h1 : countDotSpace (s.dropWhile isPySpace) ≤ countDotSpace s := by
    conv_rhs => rw [← List.takeWhile_append_dropWhile (p := isPySpace) (l := s)]
    exact countDotSpace_le_append_left _ _
  have h2 : countDotSpace (pyStrip s) ≤ countDotSpace (s.dropWhile isPySpace) := by
    have ht2 : s.dropWhile isPySpace
        = ((s.dropWhile isPySpace).reverse.dropWhile isPySpace).reverse
          ++ ((s.dropWhile isPySpace).reverse.takeWhile isPySpace).reverse := by
      calc s.dropWhile isPySpace = (s.dropWhile isPySpace).reverse.reverse :=
            (List.reverse_reverse _).symm
        _ = ((s.dropWhile isPySpace).reverse.takeWhile isPySpace
              ++ (s.dropWhile isPySpace).reverse.dropWhile isPySpace).reverse := by
            rw [List.takeWhile_append_dropWhile]
        _ = ((s.dropWhile isPySpace).reverse.dropWhile isPySpace).reverse
            ++ ((s.dropWhile isPySpace).reverse.takeWhile isPySpace).reverse := by
            rw [List.reverse_append]
    conv_rhs => rw [ht2]
    exact countDotSpace_le_append_right _ _
  exact le_trans h2 h1

theorem splitDotSpace_ne_nil (s : List Char) : splitDotSpace s ≠ [] := by
  rw [splitDotSpace.eq_def]
  split
  · simp
  · split <;> simp
  · simp

theorem splitDotSpace_cons_of_guard (c : Char) (rest : List Char) (p : List Char)
    (ps : List (List Char))
    (hguard : ∀ (rest2 : List Char), c = '.' → rest = ' ' :: rest2 → False)
    (hsp : splitDotSpace rest = p :: ps) :
    splitDotSpace (c :: rest) = (c :: p) :: ps := by
  rw [splitDotSpace.eq_def]
  split
  · rename_i rest2 heq
    injection heq with hc hrest
    exact (hguard rest2 hc hrest).elim
  · rename_i c2 rest2 heq
    injection heq with hc hrest
    subst hc; subst hrest
    rw [hsp]
  · rename_i heq
    simp at heq

theorem splitDotSpace_guard_flag (c : Char) (rest : List Char)
    (hguard : ∀ (rest2 : List Char), c = '.' → rest = ' ' :: rest2 → False) :
    ¬(c = '.' ∧ rest.head? = some ' ') := by
  rintro ⟨hc, hh⟩
  rcases rest with _ | ⟨d, rest3⟩
  · simp at hh
  · simp only [List.head?_cons, Option.some.injEq] at hh
    exact hguard rest3 hc (by rw [hh])

theorem splitDotSpace_length (s : List Char) :
    (splitDotSpace s).length = countDotSpace s + 1 := by
  induction s using splitDotSpace.induct with
  | case1 rest ih =>
    show ([] :: splitDotSpace rest).length = countDotSpace ('.' :: ' ' :: rest) + 1
    rw [countDotSpace_cons '.' (' ' :: rest), countDotSpace_cons ' ' rest]
    rw [if_pos ⟨rfl, rfl⟩, if_neg (by simp)]
    simp only [List.length_cons, ih]
    omega
  | case2 c rest hguard hnil ih =>
    exact absurd hnil (splitDotSpace_ne_nil rest)
  | case3 c rest hguard p ps hsp ih =>
    rw [splitDotSpace_cons_of_guard c rest p ps hguard hsp]
    rw [countDotSpace_cons c rest, if_neg (splitDotSpace_guard_flag c rest hguard)]
    have hlen := hsp ▸ ih
    simp only [List.length_cons] at hlen ⊢
    omega
  | case4 =>
    simp [splitDotSpace, countDotSpace_nil]

theorem splitDotSpace_head_prefix (s : List Char) :
    ∀ p ps, splitDotSpace s = p :: ps → p <+: s := by
  induction s using splitDotSpace.induct with
  | case1 rest ih =>
    intro p ps h
    rw [show splitDotSpace ('.' :: ' ' :: rest) = [] :: splitDotSpace rest from rfl] at h
    injection h with h1 _
    subst h1
    exact List.nil_prefix
  | case2 c rest hguard hnil ih =>
    exact absurd hnil (splitDotSpace_ne_nil rest)
  | case3 c rest hguard q qs hsp ih =>
    intro p ps h
    rw [splitDotSpace_cons_of_guard c rest q qs hguard hsp] at h
    injection h with h1 _
    subst h1
    exact List.cons_prefix_cons.mpr ⟨rfl, ih q qs hsp⟩
  | case4 =>
    intro p ps h
    rw [show splitDotSpace ([] : List Char) = [[]] from rfl] at h
    injection h with h1 _
    subst h1
    exact List.nil_prefix

theorem splitDotSpace_pieces_clean (s : List Char) :
    ∀ p ∈ splitDotSpace s, countDotSpace p = 0 := by
  induction s using splitDotSpace.induct with
  | case1 rest ih =>
    intro p hp
    rw [show splitDotSpace ('.' :: ' ' :: rest) = [] :: splitDotSpace rest from rfl] at hp
    rcases List.mem_cons.mp hp with h | h
    · subst h; rfl
    · exact ih p h
  | case2 c rest hguard hnil ih =>
    exact absurd hnil (splitDotSpace_ne_nil rest)
  | case3 c rest hguard q qs hsp ih =>
    intro p hp
    rw [splitDotSpace_cons_of_guard c rest q qs hguard hsp] at hp
    rcases List.mem_cons.mp hp with h | h
    · subst h
      have hq0 : countDotSpace q = 0 := ih q (hsp ▸ List.mem_cons_self q qs)
      have hflag : ¬(c = '.' ∧ q.head? = some ' ') := by
        rintro ⟨hc, hh⟩
        rcases q with _ | ⟨d, q3⟩
        · simp at hh
        · simp only [List.head?_cons, Option.some.injEq] at hh
          have hpre : (d :: q3) <+: rest := splitDotSpace_head_prefix rest _ qs hsp
          rcases hpre with ⟨tail, htail⟩
          exact hguard (q3 ++ tail) hc (by rw [← htail, hh]; rfl)
      rw [countDotSpace_cons c q, if_neg hflag, hq0]
    · exact ih p (hsp ▸ List.mem_cons_of_mem q h)
  | case4 =>
    intro p hp
    rw [show splitDotSpace ([] : List Char) = [[]] from rfl] at hp
    rcases List.mem_cons.mp hp with h | h
    · subst h; rfl
    · simp at h

theorem countDotSpace_join_le (ps : List (List Char)) (hne : ps ≠ [])
    (hclean : ∀ q ∈ ps, countDotSpace q = 0) :
    countDotSpace (joinDotSpace ps ++ ['.']) ≤ ps.length - 1 := by
  induction ps with
  | nil => exact absurd rfl hne
  | cons p rest ih =>
    cases rest with
    | nil =>
      have hp0 := hclean p (List.mem_cons_self p [])
      show countDotSpace (p ++ '.' :: []) ≤ [p].length - 1
      rw [countDotSpace_append_dot p [], hp0]
      have h1 : countDotSpace ['.'] = 0 := by decide
      simp [h1]
    | cons p2 rest2 =>
      have hp0 := hclean p (List.mem_cons_self p _)
      have hjoin : joinDotSpace (p :: p2 :: rest2) ++ ['.']
          = p ++ '.' :: ' ' :: (joinDotSpace (p2 :: rest2) ++ ['.']) := by
        simp [joinDotSpace]
      rw [hjoin, countDotSpace_append_dot, hp0]
      rw [countDotSpace_cons '.' (' ' :: (joinDotSpace (p2 :: rest2) ++ ['.'])),
        countDotSpace_cons ' ' (joinDotSpace (p2 :: rest2) ++ ['.'])]
      rw [if_pos ⟨rfl, rfl⟩, if_neg (by simp)]
      have htail := ih (by simp) (fun q hq => hclean q (List.mem_cons_of_mem p hq))
      simp only [List.length_cons] at htail ⊢
      omega

theorem countDotSpace_truncate_le (s : List Char) :
    countDotSpace (truncateSentences s) ≤ 3 := by
  unfold truncateSentences
  by_cases hlen : (splitDotSpace s).length > 4
  · rw [if_pos hlen]
    have htke : ((splitDotSpace s).take 4).length = 4 := by
      rw [List.length_take]
      omega
    have hne : (splitDotSpace s).take 4 ≠ [] := by
      intro h
      rw [h] at htke
      simp at htke
    have hclean : ∀ q ∈ (splitDotSpace s).take 4, countDotSpace q = 0 :=
      fun q hq => splitDotSpace_pieces_clean s q (List.mem_of_mem_take hq)
    have h := countDotSpace_join_le _ hne hclean
    omega
  · rw [if_neg hlen]
    have h := splitDotSpace_length s
    omega

/-- C10 (amended): response cleanup bounds.  `_clean_response` always
returns a string with at most 4 sentences (at most 3 occurrences of the
separator `". "`), and when the response is exactly empty after removing
the prompt and the artifacts, the fixed clarification message is returned.
The original claim's non-emptiness and artifact-freedom fail: a
whitespace-only cleaned response passes the emptiness check and the final
`strip()` returns the empty string, and deleting `"</s>"` / `"<s>"` can
reassemble or leave behind occurrences of the artifact tokens. -/
theorem clean_response_bounds (response prompt : List Char) :
    countDotSpace (cleanResponse response prompt) ≤ 3 ∧
    (removeArtifacts (promptStep response prompt) = [] →
      cleanResponse response prompt = clarificationMsg) := by
  constructor
  · exact le_trans (countDotSpace_pyStrip_le _) (countDotSpace_truncate_le _)
  · intro h2
    unfold cleanResponse
    rw [h2]
    decide

/-- Counterexample for C10 as stated: cleaning the whitespace-only response
`" "` returns the empty string (so the result is not always non-empty),
and cleaning `"<|endof</s>text|>"` returns exactly `"<|endoftext|>"`
(deleting `"</s>"` reassembles the artifact token, so the result is not
artifact-free). -/
theorem clean_response_claim_counterexample :
    cleanResponse [' '] ("hi".toList) = [] ∧
    cleanResponse ("<|endof</s>text|>".toList) ("hi".toList) = endoftextToken := by
  constructor
  · decide
  · decide

/-- Witness for C10: cleaning the empty response yields the clarification
message, which has no `". "` occurrence. -/
theorem clean_response_bounds_witness :
    countDotSpace (cleanResponse [] ("hi".toList)) ≤ 3 ∧
    cleanResponse [] ("hi".toList) = clarificationMsg := by
  have h := clean_response_bounds [] ("hi".toList)
  exact ⟨h.1, h.2 (by decide)⟩

end AITutor
